import Mathlib

/-!
Shallow embedding of the fleet-tracker client in `src/App/static/app.js`:
the asset registry / reconciler (module state `markers`, `bounds`, the
`#asset-count` element, `upsertMarker`, the `ws.onmessage` dispatch) and the
connection manager (`connectWS`, `ws.onopen`, `ws.onclose`, the module
variable `reconnectDelay`).

Coordinates, headings and speeds are embedded as rationals; the popup label
bound to a marker is embedded structurally as the tuple of values the source
interpolates into the popup HTML string.  The display sink (Leaflet map and
DOM) is modelled as a trace of sink events plus the mirrored count text.
-/

namespace FleetTracker

/-- One asset record as carried by feed messages (destructured at
`app.js` line 15). -/
structure Asset where
  id : String
  name : String
  lat : ℚ
  lng : ℚ
  heading_deg : ℚ
  speed_kph : ℚ
  status : String
deriving DecidableEq

/-- The content interpolated into a marker popup (`app.js` lines 20 and 23):
name, speed, heading and status of the most recent record. -/
structure Popup where
  name : String
  speed_kph : ℚ
  heading_deg : ℚ
  status : String
deriving DecidableEq

/-- Popup content built from an asset record. -/
def popupOf (a : Asset) : Popup :=
  ⟨a.name, a.speed_kph, a.heading_deg, a.status⟩

/-- Client-side marker state: current position, current popup content, and the
`title` option fixed at marker creation (`app.js` line 22). -/
structure Marker where
  pos : ℚ × ℚ
  popup : Popup
  title : String
deriving DecidableEq

/-- A rectangle with south-west corner `(south, west)` and north-east corner
`(north, east)` — Leaflet `LatLngBounds` with both corners set. -/
structure BRect where
  south : ℚ
  west : ℚ
  north : ℚ
  east : ℚ
deriving DecidableEq

/-- `L.latLngBounds()` with no points is invalid (`isValid()` false); `none`
models the invalid empty bounds, `some r` a valid rectangle. -/
def extendB (b : Option BRect) (p : ℚ × ℚ) : Option BRect :=
  match b with
  | none => some ⟨p.1, p.2, p.1, p.2⟩
  | some r => some ⟨min r.south p.1, min r.west p.2, max r.north p.1, max r.east p.2⟩

/-- The minimal rectangle covering a list of positions: fold `extendB` over
them starting from the invalid empty bounds. -/
def boundsOfList (ps : List (ℚ × ℚ)) : Option BRect :=
  ps.foldl extendB none

/-- Leaflet `LatLngBounds.pad`: grow each side by `q` times the corresponding
dimension (`bounds.pad(0.2)` at `app.js` line 87 uses `q = 1/5`). -/
def BRect.pad (r : BRect) (q : ℚ) : BRect :=
  ⟨r.south - |r.south - r.north| * q,
   r.west - |r.west - r.east| * q,
   r.north + |r.south - r.north| * q,
   r.east + |r.west - r.east| * q⟩

/-- Membership of a position in (possibly invalid) bounds; nothing is inside
the invalid empty bounds. -/
def inB : Option BRect → ℚ × ℚ → Prop
  | none, _ => False
  | some r, p => r.south ≤ p.1 ∧ p.1 ≤ r.north ∧ r.west ≤ p.2 ∧ p.2 ≤ r.east

instance : ∀ (b : Option BRect) (p : ℚ × ℚ), Decidable (inB b p)
  | none, _ => isFalse fun h => h
  | some r, p =>
      inferInstanceAs (Decidable (r.south ≤ p.1 ∧ p.1 ≤ r.north ∧ r.west ≤ p.2 ∧ p.2 ≤ r.east))

/-- Instructions issued to the display sink (Leaflet map and DOM), at the
abstraction level of the spec's sink interface. -/
inductive SinkEvent where
  | removeMarker (id : String)
  | upsertMarker (id : String) (pos : ℚ × ℚ) (popup : Popup)
  | setAssetCount (n : Nat)
  | fitBounds (r : BRect)
deriving DecidableEq

/-- Recognizes a "set total count" notification. -/
def isSetCount : SinkEvent → Bool
  | .setAssetCount _ => true
  | _ => false

/-- The reconciler's module state: the `markers` registry (`id -> marker`, a
JS object embedded as a key-unique association list), the running viewport
`bounds`, and the last count written to the `#asset-count` element. -/
structure ClientState where
  markers : List (String × Marker)
  bounds : Option BRect
  assetCountText : Option Nat
deriving DecidableEq

/-- Registry lookup `markers[id]`. -/
def getM : List (String × Marker) → String → Option Marker
  | [], _ => none
  | kv :: rest, i => if kv.1 = i then some kv.2 else getM rest i

/-- Keys of the registry. -/
def keysOf (l : List (String × Marker)) : List String :=
  l.map Prod.fst

/-- Positions of all markers currently in a registry list. -/
def positionsOfList (l : List (String × Marker)) : List (ℚ × ℚ) :=
  l.map fun kv => kv.2.pos

/-- Positions of all markers currently in the registry. -/
def positionsOf (s : ClientState) : List (ℚ × ℚ) :=
  positionsOfList s.markers

/-- Number of registry entries stored under a given id. -/
def countKey (l : List (String × Marker)) (i : String) : Nat :=
  (keysOf l).count i

/-- In-place refresh of the entry under `a.id`: `setLatLng` plus `bindPopup`
(`app.js` lines 19-20); the creation-time `title` is not touched. -/
def replaceM (l : List (String × Marker)) (a : Asset) : List (String × Marker) :=
  l.map fun kv =>
    if kv.1 = a.id then (kv.1, { kv.2 with pos := (a.lat, a.lng), popup := popupOf a }) else kv

/-- The fresh marker built on the insert path (`app.js` lines 22-25). -/
def entryOf (a : Asset) : String × Marker :=
  (a.id, ⟨(a.lat, a.lng), popupOf a, a.name⟩)

/-- `upsertMarker` (`app.js` lines 14-29): update the existing marker in place
or create a fresh one, extend `bounds` with the new position either way, and
issue one upsert instruction to the display sink. -/
def upsertMarker (a : Asset) (s : ClientState) : ClientState × List SinkEvent :=
  match getM s.markers a.id with
  | some _ =>
      ({ s with markers := replaceM s.markers a,
                bounds := extendB s.bounds (a.lat, a.lng) },
       [SinkEvent.upsertMarker a.id (a.lat, a.lng) (popupOf a)])
  | none =>
      ({ s with markers := s.markers ++ [entryOf a],
                bounds := extendB s.bounds (a.lat, a.lng) },
       [SinkEvent.upsertMarker a.id (a.lat, a.lng) (popupOf a)])

/-- `msg.data.forEach(upsertMarker)` (`app.js` line 53), threading state and
collecting the sink instructions in order. -/
def applySnapshotAssets : List Asset → ClientState → ClientState × List SinkEvent
  | [], s => (s, [])
  | a :: rest, s =>
      ((applySnapshotAssets rest (upsertMarker a s).1).1,
       (upsertMarker a s).2 ++ (applySnapshotAssets rest (upsertMarker a s).1).2)

/-- A decoded feed message: the `type` tag dispatched on at `app.js`
lines 47 and 55, with its payload; `other` covers every tag that is neither
`"snapshot"` nor `"asset_update"`. -/
inductive Msg where
  | snapshot (data : List Asset)
  | assetUpdate (data : Asset)
  | other (tag : String)

/-- The wire `type` tag of a decoded message. -/
def Msg.typeTag : Msg → String
  | .snapshot _ => "snapshot"
  | .assetUpdate _ => "asset_update"
  | .other t => t

/-- The body of `ws.onmessage` after a successful decode (`app.js`
lines 47-57): a snapshot resets `bounds`, removes every existing marker from
the map, empties the registry, upserts each record in order and writes the
record count to `#asset-count`; an `asset_update` is a single upsert; any
other tag falls through both branches. -/
def processMsg (m : Msg) (s : ClientState) : ClientState × List SinkEvent :=
  match m with
  | .snapshot data =>
      ({ (applySnapshotAssets data ⟨[], none, s.assetCountText⟩).1 with
           assetCountText := some data.length },
       (s.markers.map fun kv => SinkEvent.removeMarker kv.1)
         ++ (applySnapshotAssets data ⟨[], none, s.assetCountText⟩).2
         ++ [SinkEvent.setAssetCount data.length])
  | .assetUpdate a => upsertMarker a s
  | .other _ => (s, [])

/-- An inbound frame before decoding: either a payload `JSON.parse` rejects,
or one it decodes to a message. -/
inductive Inbound where
  | malformed
  | wellFormed (m : Msg)

/-- The one error the handler can raise: `JSON.parse` throwing on a malformed
payload. -/
inductive ClientError where
  | decodeError
deriving DecidableEq

/-- The full `ws.onmessage` handler (`app.js` lines 45-58):
`JSON.parse(evt.data)` is its first statement and is not wrapped in any
`try`/`catch`, so a malformed payload escapes as a thrown exception before
any state is touched; a well-formed payload is dispatched on its tag. -/
def onMessage (p : Inbound) (s : ClientState) : Except ClientError (ClientState × List SinkEvent) :=
  match p with
  | .malformed => .error .decodeError
  | .wellFormed m => .ok (processMsg m s)

/-- Fold a list of `asset_update` messages through the handler in order. -/
def processUpdates : List Asset → ClientState → ClientState
  | [], s => s
  | a :: rest, s => processUpdates rest (processMsg (.assetUpdate a) s).1

/-- The `btn-zoom-fit` click handler (`app.js` lines 85-89): if the bounds
are valid, issue one `fitBounds` instruction with the bounds padded by the
0.2 margin fraction; otherwise do nothing. -/
def fitClick (s : ClientState) : List SinkEvent :=
  match s.bounds with
  | some r => [SinkEvent.fitBounds (r.pad (1/5))]
  | none => []

/-- Connection-manager state: the `reconnectDelay` module variable
(milliseconds, `app.js` line 11), the number of `new WebSocket(url)`
evaluations performed so far, and the trace of delays passed to
`setTimeout(connectWS, ...)`. -/
structure ConnMgr where
  reconnectDelay : Nat
  socketsCreated : Nat
  scheduled : List Nat
deriving DecidableEq

/-- Initial module state: delay at the 1000 ms floor, no socket yet. -/
def initConn : ConnMgr :=
  ⟨1000, 0, []⟩

/-- `connectWS` (`app.js` lines 32-36): unconditionally evaluates
`new WebSocket(url)` and overwrites the module variable `ws`; it neither
checks for an existing connection nor touches `reconnectDelay`. -/
def connectWS (c : ConnMgr) : ConnMgr :=
  { c with socketsCreated := c.socketsCreated + 1 }

/-- `ws.onopen` (`app.js` lines 38-43): reset the backoff delay to the
1000 ms floor. -/
def onOpen (c : ConnMgr) : ConnMgr :=
  { c with reconnectDelay := 1000 }

/-- `ws.onclose` (`app.js` lines 60-65): schedule one reconnect after the
current delay, then double the delay, clamped at the 10000 ms ceiling. -/
def onClose (c : ConnMgr) : ConnMgr :=
  { c with scheduled := c.scheduled ++ [c.reconnectDelay],
           reconnectDelay := min (c.reconnectDelay * 2) 10000 }

/-- `n` consecutive connection failures with no intervening open. -/
def failTimes : Nat → ConnMgr → ConnMgr
  | 0, c => c
  | n + 1, c => failTimes n (onClose c)

/-! ### Registry lookup lemmas -/

theorem getM_eq_none_iff (l : List (String × Marker)) (i : String) :
    getM l i = none ↔ i ∉ keysOf l := by
  induction l with
  | nil => simp [getM, keysOf]
  | cons kv rest ih =>
      by_cases h : kv.1 = i
      · simp [getM, keysOf, h]
      · simp [getM, keysOf, h, ih, Ne.symm h]

theorem getM_isSome_iff (l : List (String × Marker)) (i : String) :
    (getM l i).isSome ↔ i ∈ keysOf l := by
  rw [← Decidable.not_iff_not, Option.not_isSome_iff_eq_none, getM_eq_none_iff]

theorem getM_append_of_none (l l₂ : List (String × Marker)) (i : String)
    (h : getM l i = none) : getM (l ++ l₂) i = getM l₂ i := by
  induction l with
  | nil => simp
  | cons kv rest ih =>
      by_cases hk : kv.1 = i
      · simp [getM, hk] at h
      · simp only [getM, hk, if_false, List.cons_append] at h ⊢
        exact ih h

theorem keysOf_replaceM (l : List (String × Marker)) (a : Asset) :
    keysOf (replaceM l a) = keysOf l := by
  induction l with
  | nil => rfl
  | cons kv rest ih =>
      by_cases h : kv.1 = a.id <;> simp [replaceM, keysOf, h] <;>
        simpa [replaceM, keysOf] using ih

theorem getM_replaceM (l : List (String × Marker)) (a : Asset) :
    getM (replaceM l a) a.id =
      (getM l a.id).map fun m => { m with pos := (a.lat, a.lng), popup := popupOf a } := by
  induction l with
  | nil => rfl
  | cons kv rest ih =>
      by_cases h : kv.1 = a.id
      · simp [replaceM, getM, h]
      · simpa [replaceM, getM, h] using ih

theorem upsertMarker_events (a : Asset) (s : ClientState) :
    (upsertMarker a s).2 = [SinkEvent.upsertMarker a.id (a.lat, a.lng) (popupOf a)] := by
  cases h : getM s.markers a.id <;> simp [upsertMarker, h]

theorem upsertMarker_bounds (a : Asset) (s : ClientState) :
    (upsertMarker a s).1.bounds = extendB s.bounds (a.lat, a.lng) := by
  cases h : getM s.markers a.id <;> simp [upsertMarker, h]

theorem upsertMarker_countText (a : Asset) (s : ClientState) :
    (upsertMarker a s).1.assetCountText = s.assetCountText := by
  cases h : getM s.markers a.id <;> simp [upsertMarker, h]

theorem upsertMarker_getM_self (a : Asset) (s : ClientState) :
    ∃ t, getM (upsertMarker a s).1.markers a.id =
      some ⟨(a.lat, a.lng), popupOf a, t⟩ := by
  cases h : getM s.markers a.id with
  | none =>
      refine ⟨a.name, ?_⟩
      simp only [upsertMarker, h]
      rw [getM_append_of_none _ _ _ h]
      simp [getM, entryOf]
  | some m =>
      refine ⟨m.title, ?_⟩
      simp only [upsertMarker, h]
      rw [getM_replaceM]
      simp [h]

theorem upsertMarker_keys (a : Asset) (s : ClientState) :
    keysOf (upsertMarker a s).1.markers =
      if (getM s.markers a.id).isSome then keysOf s.markers
      else keysOf s.markers ++ [a.id] := by
  cases h : getM s.markers a.id with
  | none => simp [upsertMarker, h, keysOf, entryOf]
  | some m => simp [upsertMarker, h, keysOf_replaceM]

theorem upsertMarker_wf (a : Asset) (s : ClientState)
    (hwf : (keysOf s.markers).Nodup) :
    (keysOf (upsertMarker a s).1.markers).Nodup := by
  rw [upsertMarker_keys]
  cases h : getM s.markers a.id with
  | none =>
      have : a.id ∉ keysOf s.markers := (getM_eq_none_iff _ _).1 h
      simp [h, List.nodup_append, hwf, this]
  | some m => simp [h, hwf]

theorem upsertMarker_countKey (a : Asset) (s : ClientState)
    (hwf : (keysOf s.markers).Nodup) :
    countKey (upsertMarker a s).1.markers a.id = 1 := by
  unfold countKey
  rw [upsertMarker_keys]
  cases h : getM s.markers a.id with
  | none =>
      have hout : a.id ∉ keysOf s.markers := (getM_eq_none_iff _ _).1 h
      simp [h, List.count_append, List.count_eq_zero_of_not_mem hout]
  | some m =>
      have hin : a.id ∈ keysOf s.markers := by
        have : (getM s.markers a.id).isSome := by simp [h]
        exact (getM_isSome_iff _ _).1 this
      simp [h, List.count_eq_one_of_mem hwf hin]

/-! ### Snapshot-application lemmas -/

theorem applySnapshotAssets_markers (data : List Asset) :
    ∀ (s : ClientState),
      (data.map Asset.id).Nodup →
      (∀ a ∈ data, a.id ∉ keysOf s.markers) →
      (applySnapshotAssets data s).1.markers = s.markers ++ data.map entryOf := by
  induction data with
  | nil => intro s _ _; simp [applySnapshotAssets]
  | cons a rest ih =>
      intro s hnd hdisj
      have hnone : getM s.markers a.id = none :=
        (getM_eq_none_iff _ _).2 (hdisj a (List.mem_cons_self a rest))
      have hmark : (upsertMarker a s).1.markers = s.markers ++ [entryOf a] := by
        simp [upsertMarker, hnone]
      have hkeys : keysOf (upsertMarker a s).1.markers = keysOf s.markers ++ [a.id] := by
        rw [hmark]; simp [keysOf, entryOf]
      have hrest : ∀ b ∈ rest, b.id ∉ keysOf (upsertMarker a s).1.markers := by
        intro b hb
        rw [hkeys]
        simp only [List.mem_append, List.mem_singleton]
        rintro (hin | heq)
        · exact hdisj b (List.mem_cons_of_mem a hb) hin
        · exact ((List.nodup_cons.1 (by simpa using hnd)).1)
            (heq ▸ List.mem_map_of_mem Asset.id hb)
      have := ih (upsertMarker a s).1 ((List.nodup_cons.1 (by simpa using hnd)).2) hrest
      simp only [applySnapshotAssets, this, hmark]
      simp

theorem applySnapshotAssets_bounds (data : List Asset) :
    ∀ (s : ClientState),
      (applySnapshotAssets data s).1.bounds =
        data.foldl (fun b a => extendB b (a.lat, a.lng)) s.bounds := by
  induction data with
  | nil => intro s; simp [applySnapshotAssets]
  | cons a rest ih =>
      intro s
      simp only [applySnapshotAssets, List.foldl_cons]
      rw [ih, upsertMarker_bounds]

theorem applySnapshotAssets_countText (data : List Asset) :
    ∀ (s : ClientState),
      (applySnapshotAssets data s).1.assetCountText = s.assetCountText := by
  induction data with
  | nil => intro s; simp [applySnapshotAssets]
  | cons a rest ih =>
      intro s
      simp only [applySnapshotAssets]
      rw [ih, upsertMarker_countText]

theorem applySnapshotAssets_filter_setCount (data : List Asset) :
    ∀ (s : ClientState),
      ((applySnapshotAssets data s).2).filter isSetCount = [] := by
  induction data with
  | nil => intro s; simp [applySnapshotAssets]
  | cons a rest ih =>
      intro s
      simp only [applySnapshotAssets]
      rw [List.filter_append, upsertMarker_events, ih]
      simp [isSetCount]

theorem filter_setCount_removals (l : List (String × Marker)) :
    (l.map fun kv => SinkEvent.removeMarker kv.1).filter isSetCount = [] := by
  induction l with
  | nil => rfl
  | cons kv rest ih => simpa [isSetCount] using ih

theorem getM_map_entryOf_mem (data : List Asset) (a : Asset)
    (hnd : (data.map Asset.id).Nodup) (ha : a ∈ data) :
    getM (data.map entryOf) a.id = some ⟨(a.lat, a.lng), popupOf a, a.name⟩ := by
  induction data with
  | nil => cases ha
  | cons b rest ih =>
      rcases List.mem_cons.1 ha with rfl | hmem
      · simp [getM, entryOf]
      · have hne : b.id ≠ a.id := by
          intro heq
          exact (List.nodup_cons.1 (by simpa using hnd)).1
            (heq ▸ List.mem_map_of_mem Asset.id hmem)
        simp only [List.map_cons, getM, entryOf, hne, if_false]
        exact ih (List.nodup_cons.1 (by simpa using hnd)).2 hmem

theorem getM_map_entryOf_not_mem (data : List Asset) (i : String)
    (hi : i ∉ data.map Asset.id) :
    getM (data.map entryOf) i = none := by
  induction data with
  | nil => rfl
  | cons b rest ih =>
      simp only [List.map_cons, List.mem_cons, not_or] at hi
      have hne : b.id ≠ i := fun h => hi.1 h.symm
      simp only [List.map_cons, getM, entryOf, hne, if_false]
      exact ih hi.2

/-! ### Bounds lemmas -/

theorem inB_extendB_self (b : Option BRect) (p : ℚ × ℚ) : inB (extendB b p) p := by
  cases b with
  | none => exact ⟨le_refl _, le_refl _, le_refl _, le_refl _⟩
  | some r =>
      exact ⟨min_le_right _ _, le_max_right _ _, min_le_right _ _, le_max_right _ _⟩

theorem inB_extendB_mono (b : Option BRect) (p q : ℚ × ℚ) (h : inB b q) :
    inB (extendB b p) q := by
  cases b with
  | none => exact h.elim
  | some r =>
      obtain ⟨h1, h2, h3, h4⟩ := h
      exact ⟨le_trans (min_le_left _ _) h1, le_trans h2 (le_max_left _ _),
             le_trans (min_le_left _ _) h3, le_trans h4 (le_max_left _ _)⟩

theorem inB_foldl_mono (ps : List (ℚ × ℚ)) :
    ∀ (b : Option BRect) (q : ℚ × ℚ), inB b q → inB (ps.foldl extendB b) q := by
  induction ps with
  | nil => intro b q h; exact h
  | cons p rest ih =>
      intro b q h
      exact ih (extendB b p) q (inB_extendB_mono b p q h)

theorem inB_foldl_mem (ps : List (ℚ × ℚ)) :
    ∀ (b : Option BRect) (p : ℚ × ℚ), p ∈ ps → inB (ps.foldl extendB b) p := by
  induction ps with
  | nil => intro b p h; cases h
  | cons q rest ih =>
      intro b p h
      rcases List.mem_cons.1 h with rfl | hmem
      · exact inB_foldl_mono rest (extendB b p) p (inB_extendB_self b p)
      · exact ih (extendB b q) p hmem

theorem mem_positions_upsert (a : Asset) (s : ClientState) (q : ℚ × ℚ)
    (h : q ∈ positionsOf (upsertMarker a s).1) :
    q = (a.lat, a.lng) ∨ q ∈ positionsOf s := by
  cases hg : getM s.markers a.id with
  | some m =>
      simp only [upsertMarker, hg, positionsOf, positionsOfList, replaceM,
        List.map_map, List.mem_map, Function.comp] at h
      obtain ⟨kv, hkv, hq⟩ := h
      by_cases hk : kv.1 = a.id
      · simp only [hk, if_true] at hq
        exact Or.inl hq.symm
      · simp only [hk, if_false] at hq
        exact Or.inr (hq ▸ List.mem_map_of_mem (fun kv => kv.2.pos) hkv)
  | none =>
      simp only [upsertMarker, hg, positionsOf, positionsOfList, List.map_append,
        List.mem_append, List.map_cons, List.map_nil, List.mem_singleton] at h
      rcases h with hin | hq
      · exact Or.inr hin
      · exact Or.inl (by simpa [entryOf] using hq)

theorem mem_positions_applySnapshot (data : List Asset) :
    ∀ (s : ClientState) (q : ℚ × ℚ),
      q ∈ positionsOf (applySnapshotAssets data s).1 →
      q ∈ positionsOf s ∨ q ∈ data.map fun a => (a.lat, a.lng) := by
  induction data with
  | nil => intro s q h; exact Or.inl h
  | cons a rest ih =>
      intro s q h
      simp only [applySnapshotAssets] at h
      rcases ih (upsertMarker a s).1 q h with hin | hin
      · rcases mem_positions_upsert a s q hin with rfl | hin2
        · exact Or.inr (by simp)
        · exact Or.inl hin2
      · exact Or.inr (by simp [hin])

/-! ### Claims -/

/-- C3: starting from the backoff floor, six consecutive connection failures
with no intervening open schedule their reconnects with delays exactly
1000, 2000, 4000, 8000, 10000, 10000 ms — i.e. 1, 2, 4, 8, 10, 10 time units
of 1000 ms — each failure scheduling one reconnect after the current delay
and then doubling it, clamped at the 10000 ms ceiling. -/
theorem backoff_six_failures (c : ConnMgr) (h : c.reconnectDelay = 1000) :
    (failTimes 6 c).scheduled = c.scheduled ++ [1000, 2000, 4000, 8000, 10000, 10000]
    ∧ [1000, 2000, 4000, 8000, 10000, 10000].map (· / 1000) = [1, 2, 4, 8, 10, 10] := by
  constructor
  · obtain ⟨d, n, sc⟩ := c
    simp only at h
    subst h
    norm_num [failTimes, onClose]
  · decide

/-- Witness for C3 at the initial connection-manager state. -/
theorem backoff_six_failures_witness :
    (failTimes 6 initConn).scheduled = [1000, 2000, 4000, 8000, 10000, 10000] := by
  simpa using (backoff_six_failures initConn rfl).1

/-- C4: whatever the current backoff delay, a successful open resets it to
the 1000 ms floor, so the next failure after that open schedules its
reconnect with delay 1000 ms. -/
theorem open_resets_backoff (c : ConnMgr) :
    (onOpen c).reconnectDelay = 1000
    ∧ (onClose (onOpen c)).scheduled = (onOpen c).scheduled ++ [1000] :=
  ⟨rfl, rfl⟩

/-- C6 counterexample: calling `connectWS` a second time is not a no-op — the
second call creates a second connection instance, so the resulting manager
state differs from the state after a single call. -/
theorem connect_not_idempotent_cex :
    connectWS (connectWS initConn) ≠ connectWS initConn := by
  decide

/-- C6 amended: `connectWS` is not idempotent — every call, including one
made while a connection attempt or open connection already exists,
unconditionally creates one new connection instance and overwrites the stored
reference; it does leave the backoff delay (and the scheduled-retry trace)
unchanged. -/
theorem connect_creates_instance (c : ConnMgr) :
    (connectWS c).socketsCreated = c.socketsCreated + 1
    ∧ (connectWS c).reconnectDelay = c.reconnectDelay
    ∧ (connectWS c).scheduled = c.scheduled :=
  ⟨rfl, rfl, rfl⟩

/-- C7 counterexample: on a malformed payload the message handler does not
return normally — `JSON.parse` is unguarded, so the decode error escapes the
handler as a thrown exception. -/
theorem malformed_payload_raises_cex :
    onMessage Inbound.malformed ⟨[], none, none⟩ = Except.error ClientError.decodeError :=
  rfl

/-- C7 amended: for every state, a malformed inbound payload makes the
handler throw the decode error out of `ws.onmessage` unhandled (there is no
`try`/`catch`); the throw happens before any mutation, so the single message
is dropped with the registry, display sink and connection state unchanged. -/
theorem malformed_payload_raises (s : ClientState) :
    onMessage Inbound.malformed s = Except.error ClientError.decodeError :=
  rfl

/-- C8: a well-formed message whose `type` tag is neither `"snapshot"` nor
`"asset_update"` falls through both dispatch branches: no sink call, no
registry or bounds change, no error. -/
theorem unknown_type_noop (tg : String) (s : ClientState)
    (h1 : tg ≠ "snapshot") (h2 : tg ≠ "asset_update") :
    processMsg (Msg.other tg) s = (s, []) :=
  rfl

/-- Witness for C8 at tag `"ping"` and the empty client state. -/
theorem unknown_type_noop_witness :
    processMsg (Msg.other "ping") ⟨[], none, none⟩ = (⟨[], none, none⟩, []) :=
  unknown_type_noop "ping" ⟨[], none, none⟩ (by decide) (by decide)

/-- C9: the fit-view operation issues exactly one fit instruction with the
bounds padded by the 20% margin fraction when the bounds are valid, and is a
no-op (with no error) when the bounds are invalid. -/
theorem fit_view_contract (s : ClientState) :
    (∀ r, s.bounds = some r → fitClick s = [SinkEvent.fitBounds (r.pad (1/5))])
    ∧ (s.bounds = none → fitClick s = []) := by
  constructor
  · intro r h
    simp [fitClick, h]
  · intro h
    simp [fitClick, h]

/-- Witness for C9 on one valid-bounds state and one empty-registry state. -/
theorem fit_view_contract_witness :
    fitClick ⟨[], some ⟨0, 0, 10, 10⟩, none⟩
      = [SinkEvent.fitBounds (BRect.pad ⟨0, 0, 10, 10⟩ (1/5))]
    ∧ fitClick ⟨[], none, none⟩ = [] :=
  ⟨(fit_view_contract ⟨[], some ⟨0, 0, 10, 10⟩, none⟩).1 ⟨0, 0, 10, 10⟩ rfl,
   (fit_view_contract ⟨[], none, none⟩).2 rfl⟩

/-- C10: an `asset_update` never changes the displayed asset count — it
issues no set-total-count notification and leaves the count text unchanged —
so after a snapshot of `N` assets followed by any sequence of
`asset_update` messages (inserting or not), the displayed count is still
`N`. -/
theorem update_keeps_displayed_count :
    (∀ (s : ClientState) (a : Asset),
        (processMsg (Msg.assetUpdate a) s).1.assetCountText = s.assetCountText
        ∧ ((processMsg (Msg.assetUpdate a) s).2).filter isSetCount = [])
    ∧ ∀ (s : ClientState) (data updates : List Asset),
        (processUpdates updates (processMsg (Msg.snapshot data) s).1).assetCountText
          = some data.length := by
  have hpres : ∀ (updates : List Asset) (s' : ClientState),
      (processUpdates updates s').assetCountText = s'.assetCountText := by
    intro updates
    induction updates with
    | nil => intro s'; rfl
    | cons a rest ih =>
        intro s'
        simp only [processUpdates]
        rw [ih]
        exact upsertMarker_countText a s'
  constructor
  · intro s a
    refine ⟨upsertMarker_countText a s, ?_⟩
    rw [show (processMsg (Msg.assetUpdate a) s).2 = (upsertMarker a s).2 from rfl,
        upsertMarker_events]
    simp [isSetCount]
  · intro s data updates
    rw [hpres]
    rfl

/-- C1: a snapshot of records with pairwise distinct ids clears the registry
and repopulates it with exactly those records — the keys afterwards are
exactly the snapshot ids, each record is stored as a fresh entry, any id not
in the snapshot (in particular one present only before) is absent — and the
sink trace contains exactly one set-total-count notification, carrying the
number of records. -/
theorem snapshot_fully_replaces (s : ClientState) (data : List Asset)
    (hnd : (data.map Asset.id).Nodup) :
    keysOf (processMsg (Msg.snapshot data) s).1.markers = data.map Asset.id
    ∧ (∀ a ∈ data,
        getM (processMsg (Msg.snapshot data) s).1.markers a.id =
          some ⟨(a.lat, a.lng), popupOf a, a.name⟩)
    ∧ (∀ i, i ∉ data.map Asset.id →
        getM (processMsg (Msg.snapshot data) s).1.markers i = none)
    ∧ ((processMsg (Msg.snapshot data) s).2).filter isSetCount
        = [SinkEvent.setAssetCount data.length] := by
  have hmark : (processMsg (Msg.snapshot data) s).1.markers = data.map entryOf := by
    show (applySnapshotAssets data ⟨[], none, s.assetCountText⟩).1.markers = _
    rw [applySnapshotAssets_markers data ⟨[], none, s.assetCountText⟩ hnd
        (by intro a _; simp [keysOf])]
    simp
  refine ⟨?_, ?_, ?_, ?_⟩
  · rw [hmark]
    simp only [keysOf, List.map_map]
    exact List.map_congr_left fun a _ => rfl
  · intro a ha
    rw [hmark]
    exact getM_map_entryOf_mem data a hnd ha
  · intro i hi
    rw [hmark]
    exact getM_map_entryOf_not_mem data i hi
  · show ((s.markers.map fun kv => SinkEvent.removeMarker kv.1)
        ++ (applySnapshotAssets data ⟨[], none, s.assetCountText⟩).2
        ++ [SinkEvent.setAssetCount data.length]).filter isSetCount = _
    rw [List.filter_append, List.filter_append, filter_setCount_removals,
        applySnapshotAssets_filter_setCount]
    simp [isSetCount]

/-- Witness for C1: a snapshot of two assets processed over a registry that
holds an asset `"C"` absent from the snapshot; afterwards `"C"` is gone. -/
theorem snapshot_fully_replaces_witness :
    getM (processMsg
        (Msg.snapshot [⟨"a", "A", 1, 2, 3, 4, "moving"⟩, ⟨"b", "B", 5, 6, 7, 8, "idle"⟩])
        ⟨[("C", ⟨(1, 1), ⟨"C", 0, 0, "idle"⟩, "C"⟩)], some ⟨1, 1, 1, 1⟩, some 1⟩).1.markers
      "C" = none :=
  (snapshot_fully_replaces
      ⟨[("C", ⟨(1, 1), ⟨"C", 0, 0, "idle"⟩, "C"⟩)], some ⟨1, 1, 1, 1⟩, some 1⟩
      [⟨"a", "A", 1, 2, 3, 4, "moving"⟩, ⟨"b", "B", 5, 6, 7, 8, "idle"⟩]
      (by decide)).2.2.1 "C" (by decide)

/-- Last-write-wins for a run of same-id updates, generalized over the start
state for the induction. -/
theorem processUpdates_lww_aux (updates : List Asset) :
    ∀ (s : ClientState) (i : String) (la : Asset),
      (keysOf s.markers).Nodup →
      (∀ a ∈ updates, a.id = i) →
      updates.getLast? = some la →
      (∃ t, getM (processUpdates updates s).markers i =
          some ⟨(la.lat, la.lng), popupOf la, t⟩)
      ∧ countKey (processUpdates updates s).markers i = 1 := by
  induction updates with
  | nil =>
      intro s i la _ _ hlast
      exact absurd hlast (by simp)
  | cons a rest ih =>
      intro s i la hwf hid hlast
      cases rest with
      | nil =>
          have hla : la = a := by simpa using hlast.symm
          have hai : a.id = i := hid a (by simp)
          rw [hla, show processUpdates [a] s = (upsertMarker a s).1 from rfl, ← hai]
          exact ⟨upsertMarker_getM_self a s, upsertMarker_countKey a s hwf⟩
      | cons b t =>
          rw [List.getLast?_cons_cons] at hlast
          have hid' : ∀ x ∈ b :: t, x.id = i := fun x hx => hid x (List.mem_cons_of_mem a hx)
          have hwf' := upsertMarker_wf a s hwf
          have := ih (upsertMarker a s).1 i la hwf' hid' hlast
          simpa [processUpdates] using this

/-- C2: applying a non-empty run of `asset_update` messages carrying the same
id, in order, to any well-formed registry state leaves exactly one entry for
that id, whose position and popup fields (name, speed, heading, status) are
those of the last message in the run. -/
theorem asset_update_last_write_wins (s : ClientState) (updates : List Asset)
    (i : String) (la : Asset)
    (hwf : (keysOf s.markers).Nodup)
    (hid : ∀ a ∈ updates, a.id = i)
    (hlast : updates.getLast? = some la) :
    (∃ t, getM (processUpdates updates s).markers i =
        some ⟨(la.lat, la.lng), popupOf la, t⟩)
    ∧ countKey (processUpdates updates s).markers i = 1 :=
  processUpdates_lww_aux updates s i la hwf hid hlast

/-- Witness for C2: two updates for id `"1"` on the empty registry end with
the second message's fields and a single entry. -/
theorem asset_update_last_write_wins_witness :
    (∃ t, getM (processUpdates
        [⟨"1", "A", 0, 0, 0, 1, "moving"⟩, ⟨"1", "B", 5, 6, 7, 8, "stopped"⟩]
        ⟨[], none, none⟩).markers "1" =
        some ⟨(5, 6), ⟨"B", 8, 7, "stopped"⟩, t⟩)
    ∧ countKey (processUpdates
        [⟨"1", "A", 0, 0, 0, 1, "moving"⟩, ⟨"1", "B", 5, 6, 7, 8, "stopped"⟩]
        ⟨[], none, none⟩).markers "1" = 1 :=
  asset_update_last_write_wins ⟨[], none, none⟩
    [⟨"1", "A", 0, 0, 0, 1, "moving"⟩, ⟨"1", "B", 5, 6, 7, 8, "stopped"⟩]
    "1" ⟨"1", "B", 5, 6, 7, 8, "stopped"⟩
    (by decide) (by decide) (by decide)

/-- C5 counterexample: snapshot one asset at `(0, 0)`, then move it to
`(10, 10)` by an `asset_update` — the registry changed, but the bounds still
contain the stale `(0, 0)` corner and are not the minimal rectangle covering
the current positions. -/
theorem bounds_not_minimal_cex :
    (processMsg (Msg.assetUpdate ⟨"1", "A", 10, 10, 0, 0, "moving"⟩)
        (processMsg (Msg.snapshot [⟨"1", "A", 0, 0, 0, 0, "moving"⟩])
          ⟨[], none, none⟩).1).1.bounds
      ≠ boundsOfList (positionsOf
          (processMsg (Msg.assetUpdate ⟨"1", "A", 10, 10, 0, 0, "moving"⟩)
            (processMsg (Msg.snapshot [⟨"1", "A", 0, 0, 0, 0, "moving"⟩])
              ⟨[], none, none⟩).1).1) := by
  decide

/-- C5 amended: after a snapshot the bounds are exactly the minimal rectangle
covering the snapshot positions, but an `asset_update` only extends the
running bounds with the new position and never shrinks them; what holds in
general is one-sided: every message preserves the invariant that every
current asset position lies inside the bounds, which may be strictly larger
than the minimal rectangle once an asset has moved. -/
theorem bounds_cover_positions :
    (∀ (s : ClientState) (data : List Asset),
        (processMsg (Msg.snapshot data) s).1.bounds
          = boundsOfList (data.map fun a => (a.lat, a.lng)))
    ∧ (∀ (s : ClientState) (m : Msg),
        (∀ p ∈ positionsOf s, inB s.bounds p) →
        ∀ p ∈ positionsOf (processMsg m s).1, inB (processMsg m s).1.bounds p) := by
  have hsnap : ∀ (s : ClientState) (data : List Asset),
      (processMsg (Msg.snapshot data) s).1.bounds
        = boundsOfList (data.map fun a => (a.lat, a.lng)) := by
    intro s data
    show (applySnapshotAssets data ⟨[], none, s.assetCountText⟩).1.bounds = _
    rw [applySnapshotAssets_bounds]
    unfold boundsOfList
    rw [List.foldl_map]
  refine ⟨hsnap, ?_⟩
  intro s m hinv
  cases m with
  | snapshot data =>
      intro p hp
      rw [hsnap]
      have hp' : p ∈ positionsOf (applySnapshotAssets data ⟨[], none, s.assetCountText⟩).1 := hp
      rcases mem_positions_applySnapshot data ⟨[], none, s.assetCountText⟩ p hp' with hin | hin
      · exact absurd hin (by simp [positionsOf, positionsOfList])
      · exact inB_foldl_mem _ none p hin
  | assetUpdate a =>
      intro p hp
      rw [show (processMsg (Msg.assetUpdate a) s).1.bounds
            = extendB s.bounds (a.lat, a.lng) from upsertMarker_bounds a s]
      rcases mem_positions_upsert a s p hp with rfl | hmem
      · exact inB_extendB_self _ _
      · exact inB_extendB_mono _ _ _ (hinv p hmem)
  | other tg =>
      intro p hp
      exact hinv p hp

/-- Witness for C5 amended: the snapshot part at a one-asset snapshot, and
the invariant part at an `asset_update` on the empty state, whose new
position lands inside the resulting bounds. -/
theorem bounds_cover_positions_witness :
    (processMsg (Msg.snapshot [⟨"1", "A", 2, 3, 0, 0, "moving"⟩]) ⟨[], none, none⟩).1.bounds
      = boundsOfList ([⟨"1", "A", 2, 3, 0, 0, "moving"⟩].map fun (a : Asset) => (a.lat, a.lng))
    ∧ inB (processMsg (Msg.assetUpdate ⟨"2", "B", 4, 5, 0, 0, "moving"⟩)
        ⟨[], none, none⟩).1.bounds (4, 5) :=
  ⟨bounds_cover_positions.1 ⟨[], none, none⟩ [⟨"1", "A", 2, 3, 0, 0, "moving"⟩],
   bounds_cover_positions.2 ⟨[], none, none⟩ (Msg.assetUpdate ⟨"2", "B", 4, 5, 0, 0, "moving"⟩)
     (by decide) (4, 5) (by decide)⟩

end FleetTracker
